import Mathlib

/-!
Verification development for the go-fetcher crawling and delivery engine
(`src/go-fetcher` and the unnamed Go sources of the same package).

The Go code is shallowly embedded: pure logic is translated into executable
Lean functions; per-seed mutable state (`crawlState` in `lib/crawler.go`)
becomes explicit state passing, where each call of the mutex-protected
`enqueue` closure is one atomic state transition (the mutex makes the
check-and-insert a single critical section, so any concurrent execution is
an interleaving of these atomic transitions).

External collaborators that the Go code delegates to are modelled at their
interface boundary:
  * `net/url` parsing and `NormalizeURL` (which is a thin wrapper over
    `net/url`) are passed in as function parameters `normalize`/`hostOf`;
    the claims quantify over them.
  * Go `float64` percentages are modelled with exact `Rat` arithmetic
    (no claim depends on rounding).
  * `time.Duration` is modelled in milliseconds as `Nat`
    (`2 * time.Second = 2000`); `time.Time` instants are abstract `Nat`.
  * zip + base64 encoding of the archive payload is modelled by the list of
    archive entries it encodes (the encoding is injective bookkeeping that
    no claim inspects); writes to the in-memory zip buffer cannot fail.
  * the Redis list backing the dead letter queue is modelled as a Lean list
    (`LPush` = cons at the head, `RPop` = take from the tail), holding the
    JSON-serialized records, with a non-nil Redis client.
-/

/-- `lib/models.go` / `lib/minio_uploader.go` `PageContent`. -/
structure PageContent where
  url : String
  html : String
  error : String
  contentType : String
deriving DecidableEq, Repr

/-- `lib/minio_uploader.go` `PageMetadata`. -/
structure PageMetadata where
  url : String
  fileName : String
  contentType : String
  error : String
  sizeBytes : Nat
  hasHTML : Bool
deriving DecidableEq, Repr

/-- `lib/minio_uploader.go` `BatchStats`. -/
structure BatchStats where
  successful : Nat
  failed : Nat
deriving DecidableEq, Repr

/-- `lib/minio_uploader.go` `PageBatch`; the base64 zip payload
(`ArchiveBase64`) is modelled by the list of archive entries it encodes. -/
structure PageBatch where
  requestID : String
  batchID : String
  mainURL : String
  batchNum : Nat
  pages : List PageContent
  isComplete : Bool
  totalPages : Nat
  archive : List (String × String)
  compression : String
  metadata : List PageMetadata
  stats : BatchStats
deriving DecidableEq, Repr

/-- `utils/helpers.go` `Percent`: Go guards `total <= 0`; with `Nat` totals
this is `total = 0`.  The `float64` result is modelled exactly in `Rat`. -/
def Percent (done total : Nat) : Rat :=
  if total = 0 then 0 else (done : Rat) / (total : Rat) * 100

/-- `lib/models.go` / `lib/minio_uploader.go` `ProgressEvent`
(the `Percent` field is a `Rat`, see `Percent`). -/
structure ProgressEvent where
  type : String
  requestID : String
  url : String
  done : Nat
  total : Nat
  percent : Rat
  message : String
deriving DecidableEq, Repr

/-- `lib/crawler.go` `CrawlerConfig`. -/
structure CrawlerConfig where
  batchSize : Nat
  progressEveryN : Nat
  perSeedWorkers : Nat
  maxPagesPerSeed : Nat
deriving DecidableEq, Repr

/-- Go `strings.ToLower`, on the character list (kernel-reducible). -/
def lowerStr (s : String) : String :=
  ⟨s.data.map Char.toLower⟩

/-- Go `strings.HasPrefix`, on the character lists (kernel-reducible). -/
def startsWithStr (s p : String) : Bool :=
  s.data.take p.data.length == p.data

/-- `utils/helpers.go` `SameHost` (`strings.EqualFold`), modelled as equality
of lower-cased strings. -/
def sameHostFold (a b : String) : Bool :=
  lowerStr a == lowerStr b

/-- `lib/crawler.go` `crawlState`, with explicit bookkeeping replacing the
channel and mutexes: `pending` is the current content of `urlQueue`;
`pushed` is the cumulative log of every send on `urlQueue`; `events` is the
log of every `eventHub.Publish` call made on behalf of this seed. -/
structure CrawlState where
  requestID : String
  mainURL : String
  mainHost : String
  visited : List String
  pending : List String
  pushed : List String
  pages : List PageContent
  processed : Nat
  enqueued : Nat
  maxPages : Nat
  events : List ProgressEvent
deriving DecidableEq, Repr

/-- The fresh per-seed state built at the top of `CrawlOneSeed`
(`lib/crawler.go` lines 67–76). -/
def crawlInit (requestID mainURL mainHost : String) (maxPages : Nat) : CrawlState :=
  { requestID := requestID, mainURL := mainURL, mainHost := mainHost,
    visited := [], pending := [], pushed := [], pages := [],
    processed := 0, enqueued := 0, maxPages := maxPages, events := [] }

/-- `lib/crawler.go` lines 81–105: the mutex-protected `enqueue` closure.
`normalize` models `NormalizeURL` and `hostOf` models
`url.Parse(link).Host` (`none` = parse error); both delegate to Go's
`net/url` and are therefore parameters of the embedding.  One call is one
critical section: normalize, drop empty or foreign-host links, drop when
the visited set has reached `maxPages`, drop duplicates, otherwise insert
into the visited set and push on the queue. -/
def enqueue (normalize : String → String → String) (hostOf : String → Option String)
    (st : CrawlState) (rawLink : String) : CrawlState :=
  let link := normalize st.mainURL rawLink
  if link = "" then st
  else
    match hostOf link with
    | none => st
    | some h =>
      if sameHostFold st.mainHost h then
        if st.maxPages ≤ st.visited.length then st
        else if link ∈ st.visited then st
        else { st with visited := st.visited ++ [link],
                       pending := st.pending ++ [link],
                       pushed := st.pushed ++ [link],
                       enqueued := st.enqueued + 1 }
      else st

/-- The `progress` event of `lib/crawler.go` lines 116–123. -/
def progressEvent (requestID seed : String) (done total : Nat) : ProgressEvent :=
  { type := "progress", requestID := requestID, url := seed,
    done := done, total := total, percent := Percent done total, message := "" }

/-- The `limit_reached` event of `lib/crawler.go` lines 126–131. -/
def limitEvent (requestID seed : String) (maxPages : Nat) : ProgressEvent :=
  { type := "limit_reached", requestID := requestID, url := seed,
    done := 0, total := 0, percent := 0,
    message := "Reached max crawl limit of " ++ toString maxPages ++ " pages" }

/-- The seed-level `complete` event of `lib/crawler.go` lines 151–158. -/
def completeEvent (requestID seed : String) (done total : Nat) : ProgressEvent :=
  { type := "complete", requestID := requestID, url := seed,
    done := done, total := total, percent := Percent done total, message := "" }

/-- Update of the worker-side bookkeeping fields of a `CrawlState` (the
fields `lib/crawler.go`'s worker loop mutates outside of `enqueue`). -/
def withBookkeeping (st : CrawlState) (pending' : List String)
    (pages' : List PageContent) (processed' : Nat)
    (events' : List ProgressEvent) : CrawlState :=
  { st with pending := pending', pages := pages', processed := processed',
            events := events' }

/-- One iteration of the worker loop of `lib/crawler.go` (lines 110–142)
for the queue head `u`: fetch the page, record it, bump `processed`, maybe
publish a `progress` event, and either hit the page cap (publish
`limit_reached` and return `true` — the worker returns) or extract and
enqueue same-host links from HTML pages and continue.  `fetch` models
`pageFetcher.FetchPage` and `extract` models
`ExtractSameDomainLinks(html, u)` — both do network I/O or HTML parsing via
external libraries and are parameters. -/
def crawlBody (fetch : String → PageContent) (extract : String → String → List String)
    (normalize : String → String → String) (hostOf : String → Option String)
    (requestID seed : String) (progressEveryN : Nat)
    (u : String) (rest : List String) (st : CrawlState) : CrawlState × Bool :=
  let pc := fetch u
  let st1 := withBookkeeping st rest (st.pages ++ [pc]) (st.processed + 1) st.events
  let done := st1.processed
  let total := st1.enqueued
  let st2 := if done % progressEveryN = 0
             then withBookkeeping st1 st1.pending st1.pages st1.processed
                    (st1.events ++ [progressEvent requestID seed done total])
             else st1
  if st2.maxPages ≤ done then
    (withBookkeeping st2 st2.pending st2.pages st2.processed
       (st2.events ++ [limitEvent requestID seed st2.maxPages]), true)
  else if pc.error = "" ∧ startsWithStr pc.contentType "text/html" then
    ((extract pc.html u).foldl (enqueue normalize hostOf) st2, false)
  else (st2, false)

/-- `lib/crawler.go` lines 108–144: the worker loop, sequentialized for one
worker (each loop body runs between two channel operations; the per-page
work is exactly `crawlBody`).  `fuel` bounds the number of loop iterations;
every reachable point of the crawl is the result for some fuel value. -/
def crawlLoop (fetch : String → PageContent) (extract : String → String → List String)
    (normalize : String → String → String) (hostOf : String → Option String)
    (requestID seed : String) (progressEveryN : Nat) : Nat → CrawlState → CrawlState
  | 0, st => st
  | fuel + 1, st =>
    match st.pending with
    | [] => st
    | u :: rest =>
      let r := crawlBody fetch extract normalize hostOf requestID seed progressEveryN u rest st
      if r.2 then r.1
      else crawlLoop fetch extract normalize hostOf requestID seed progressEveryN fuel r.1

/-- `lib/crawler.go` `CrawlOneSeed` (lines 62–160): seed validation, initial
enqueue, worker loop, final `complete` event.  The batch handoff
(`sendSingleBatch`) is modelled separately. -/
def crawlSeed (fetch : String → PageContent) (extract : String → String → List String)
    (normalize : String → String → String) (hostOf : String → Option String)
    (requestID seed : String) (cfg : CrawlerConfig) (fuel : Nat) :
    Except String CrawlState :=
  match hostOf seed with
  | none => .error ("invalid seed: " ++ seed)
  | some h =>
    if h = "" then .error ("invalid seed: " ++ seed)
    else
      let st0 := crawlInit requestID seed (lowerStr h) cfg.maxPagesPerSeed
      let st1 := enqueue normalize hostOf st0 seed
      let st2 := crawlLoop fetch extract normalize hostOf requestID seed cfg.progressEveryN fuel st1
      .ok { st2 with events := st2.events ++ [completeEvent requestID seed st2.processed st2.enqueued] }

/-- The failure condition of the archive-builder loop
(`lib/archive_builder.go` line 31): `page.Error != "" || page.HTML == ""`. -/
def pageFailed (p : PageContent) : Bool :=
  p.error != "" || p.html == ""

/-- `lib/archive_builder.go` `buildCompressedArchive` loop (lines 24–50),
recursing over the pages with the running index `idx` (`idx + 1` is passed
to the filename generator as in the Go code).  `gen` models
`generateArchiveFileName`, which delegates to `net/url` and `regexp` and
whose output no claim inspects.  Writes to the in-memory zip buffer cannot
fail, so the construction is total. -/
def buildArchiveFrom (gen : Nat → String → String → String) (mainURL : String) :
    Nat → List PageContent → List (String × String) × List PageMetadata × BatchStats
  | _, [] => ([], [], ⟨0, 0⟩)
  | idx, page :: rest =>
    if pageFailed page then
      let r := buildArchiveFrom gen mainURL (idx + 1) rest
      (r.1,
       { url := page.url, fileName := "", contentType := page.contentType,
         error := page.error, sizeBytes := 0, hasHTML := false } :: r.2.1,
       ⟨r.2.2.successful, r.2.2.failed + 1⟩)
    else
      let fn := gen (idx + 1) page.url mainURL
      let r := buildArchiveFrom gen mainURL (idx + 1) rest
      ((fn, page.html) :: r.1,
       { url := page.url, fileName := fn, contentType := page.contentType,
         error := page.error, sizeBytes := page.html.length, hasHTML := true } :: r.2.1,
       ⟨r.2.2.successful + 1, r.2.2.failed⟩)

/-- `lib/archive_builder.go` `buildCompressedArchive` (lines 17–57):
returns (archive entries, metadata, stats). -/
def buildCompressedArchive (gen : Nat → String → String → String)
    (mainURL : String) (pages : List PageContent) :
    List (String × String) × List PageMetadata × BatchStats :=
  buildArchiveFrom gen mainURL 0 pages

/-- `lib/crawler.go` `sendSingleBatch` (lines 182–205): the `PageBatch`
constructed from the buffered pages; `TotalPages` is `len(metadata)`.
`batchID` models the generated UUID. -/
def mkSingleBatch (gen : Nat → String → String → String)
    (requestID batchID mainURL : String) (pages : List PageContent) : PageBatch :=
  let r := buildCompressedArchive gen mainURL pages
  { requestID := requestID, batchID := batchID, mainURL := mainURL, batchNum := 1,
    pages := [], isComplete := true, totalPages := r.2.1.length,
    archive := r.1, compression := "zip-base64", metadata := r.2.1, stats := r.2.2 }

/-- A transport-level failure of `httpClient.Do` in
`lib/analyzer_client.go`: the error message, whether the value implements
`net.Error`, and whether it reports `Temporary() || Timeout()`. -/
structure TransportErr where
  msg : String
  isNetError : Bool
  temporaryOrTimeout : Bool
deriving DecidableEq, Repr

/-- Go `strings.Contains`: `sub` occurs contiguously in `s`. -/
def strContains (s sub : String) : Bool :=
  decide (sub.data <:+: s.data)

/-- `lib/analyzer_client.go` `isTransientNetErr` (lines 166–180). -/
def isTransientNetErr (e : TransportErr) : Bool :=
  (e.isNetError && e.temporaryOrTimeout) ||
  strContains e.msg "connection reset" ||
  strContains e.msg "unexpected EOF" ||
  strContains e.msg "broken pipe" ||
  strContains e.msg "timeout" ||
  strContains e.msg "EOF"

/-- What one HTTP delivery attempt observes: either a response status (with
body) or a transport error. -/
inductive AttemptOutcome where
  | status (code : Nat) (body : String)
  | transport (e : TransportErr)
deriving DecidableEq, Repr

/-- `lib/analyzer_client.go` `sendBatchOnce` (lines 88–161), reduced to its
observable classification: the streaming JSON/gzip upload plumbing is I/O
that cannot alter which outcomes count as success.  Returns `none` on
success and `some errorMessage` on failure, mirroring the Go error values:
transport errors fail (tagged transient or not), `202` succeeds, `>= 400`
fails, any other status outside `[200, 300)` fails, the rest succeed. -/
def sendBatchOnce (o : AttemptOutcome) : Option String :=
  match o with
  | .transport e =>
    if isTransientNetErr e then some ("transient http error: " ++ e.msg)
    else some ("http request failed: " ++ e.msg)
  | .status code body =>
    if code = 202 then none
    else if 400 ≤ code then some ("analyzer returned HTTP " ++ toString code ++ ": " ++ body)
    else if code < 200 ∨ 300 ≤ code then some ("unexpected status code: " ++ toString code)
    else none

/-- `NewAnalyzerClient` (`lib/analyzer_client.go` line 32): `maxRetries = 3`. -/
def maxRetries : Nat := 3

/-- `NewAnalyzerClient` (`lib/analyzer_client.go` line 33):
`retryBackoff = 2 * time.Second`, in milliseconds. -/
def retryBackoffMs : Nat := 2000

/-- The observable result of `SendBatch`: how many attempts were made, the
backoff sleeps performed before each retry (in order), and the final result
(`none` = success, `some lastErr` = all attempts failed). -/
structure SendResult where
  attempts : Nat
  delays : List Nat
  result : Option String
deriving DecidableEq, Repr

/-- `lib/analyzer_client.go` `SendBatch` retry loop (lines 49–67).  `env n`
is what attempt number `n` observes; `fuel` is the number of attempts still
allowed including the current one (the loop runs `attempt = 0 ..
maxRetries`, so it starts at `maxRetries + 1`).  After a failed attempt
with retries remaining the loop sleeps `backoff * 2 ^ attempt`. -/
def sendLoop (env : Nat → AttemptOutcome) (backoff : Nat) :
    Nat → Nat → SendResult
  | _, 0 => ⟨0, [], none⟩
  | attempt, fuel + 1 =>
    match sendBatchOnce (env attempt) with
    | none => ⟨1, [], none⟩
    | some err =>
      if fuel = 0 then ⟨1, [], some err⟩
      else
        match sendLoop env backoff (attempt + 1) fuel with
        | ⟨n, ds, res⟩ => ⟨n + 1, backoff * 2 ^ attempt :: ds, res⟩

/-- `lib/analyzer_client.go` `SendBatch` (lines 45–83): run up to
`mr + 1` attempts from attempt `0`. -/
def sendBatch (env : Nat → AttemptOutcome) (mr backoff : Nat) : SendResult :=
  sendLoop env backoff 0 (mr + 1)

/-- `lib/analyzer_client.go` lines 69–80: the events `SendBatch` publishes
after exhausting all attempts — exactly one `batch_delivery_failed` event
when an event hub has been attached via `SetEventHub`, none otherwise
(`NewAnalyzerClient` leaves the hub nil). -/
def sendBatchEvents (hubAttached : Bool) (requestID : String) (res : Option String) :
    List ProgressEvent :=
  match res with
  | none => []
  | some err =>
    if hubAttached then
      [{ type := "batch_delivery_failed", requestID := requestID, url := "",
         done := 0, total := 0, percent := 0,
         message := "Failed to deliver batch " ++ requestID ++ " after " ++
           toString (maxRetries + 1) ++ " retries: " ++ err }]
    else []

/-- The JSON values produced by `encoding/json` for the types at hand. -/
inductive Json where
  | str : String → Json
  | num : Int → Json
  | arr : List Json → Json
  | obj : List (String × Json) → Json
deriving BEq, Repr

/-- `encoding/json` marshalling of `PageContent` (`lib/minio_uploader.go`
struct tags): `error` and `content_type` carry `omitempty`. -/
def marshalPageContent (p : PageContent) : Json :=
  .obj ([("url", .str p.url), ("html", .str p.html)] ++
    (if p.error = "" then [] else [("error", .str p.error)]) ++
    (if p.contentType = "" then [] else [("content_type", .str p.contentType)]))

/-- `src/unnamed/part_009` `FailedBatch`.  `timestamp` is an abstract
`time.Time` instant (Go's RFC3339 JSON form round-trips the instant). -/
structure FailedBatch where
  requestID : String
  mainURL : String
  batchNum : Nat
  pages : List PageContent
  error : String
  timestamp : Nat
  retryCount : Nat
deriving DecidableEq, Repr

/-- `encoding/json` marshalling of `FailedBatch` per its struct tags
(no field carries `omitempty`). -/
def marshalFailedBatch (b : FailedBatch) : Json :=
  .obj [("request_id", .str b.requestID), ("main_url", .str b.mainURL),
        ("batch_num", .num b.batchNum), ("pages", .arr (b.pages.map marshalPageContent)),
        ("error", .str b.error), ("timestamp", .num b.timestamp),
        ("retry_count", .num b.retryCount)]

/-- Unmarshal a string field: a missing key keeps the zero value `""`
(Go `encoding/json` ignores absent keys); a non-string value fails. -/
def getStrField (fs : List (String × Json)) (k : String) : Option String :=
  match fs.lookup k with
  | none => some ""
  | some (.str s) => some s
  | some _ => none

/-- Unmarshal a numeric field into the (nonnegative) counters of the model;
a missing key keeps the zero value `0`. -/
def getNatField (fs : List (String × Json)) (k : String) : Option Nat :=
  match fs.lookup k with
  | none => some 0
  | some (.num i) => if 0 ≤ i then some i.toNat else none
  | some _ => none

/-- `encoding/json` unmarshalling of `PageContent`. -/
def unmarshalPageContent : Json → Option PageContent
  | .obj fs => do
    let url ← getStrField fs "url"
    let html ← getStrField fs "html"
    let err ← getStrField fs "error"
    let ct ← getStrField fs "content_type"
    pure ⟨url, html, err, ct⟩
  | _ => none

/-- `encoding/json` unmarshalling of a `[]PageContent` array, element by
element. -/
def unmarshalPages : List Json → Option (List PageContent)
  | [] => some []
  | j :: js => do
    let p ← unmarshalPageContent j
    let ps ← unmarshalPages js
    pure (p :: ps)

/-- `encoding/json` unmarshalling of `FailedBatch`
(`json.Unmarshal(data, &batch)` in `src/unnamed/part_009` `Dequeue`). -/
def unmarshalFailedBatch : Json → Option FailedBatch
  | .obj fs => do
    let rid ← getStrField fs "request_id"
    let mu ← getStrField fs "main_url"
    let bn ← getNatField fs "batch_num"
    let pages ← (match fs.lookup "pages" with
                 | none => some []
                 | some (.arr js) => unmarshalPages js
                 | some _ => none)
    let err ← getStrField fs "error"
    let ts ← getNatField fs "timestamp"
    let rc ← getNatField fs "retry_count"
    pure ⟨rid, mu, bn, pages, err, ts, rc⟩
  | _ => none

/-- `src/unnamed/part_009` `Enqueue` (lines 41–69) with a non-nil Redis
client: marshal the record and `LPush` it (head of the list); the TTL
refresh does not change the list content. -/
def dlqEnqueue (b : FailedBatch) (q : List Json) : List Json :=
  marshalFailedBatch b :: q

/-- The three outcomes of `src/unnamed/part_009` `Dequeue` (lines 72–94):
queue empty (`redis.Nil`), a record, or an unmarshalling error. -/
inductive DequeueResult where
  | empty
  | record (b : FailedBatch)
  | corrupt
deriving DecidableEq, Repr

/-- `src/unnamed/part_009` `Dequeue` with a non-nil Redis client: `RPop`
the oldest record (tail of the list) and unmarshal it. -/
def dlqDequeue (q : List Json) : DequeueResult × List Json :=
  match q.getLast? with
  | none => (.empty, q)
  | some j =>
    match unmarshalFailedBatch j with
    | none => (.corrupt, q.dropLast)
    | some b => (.record b, q.dropLast)

/-- `src/unnamed/part_009` `RetryFailedBatches` (lines 131–138): the
`PageBatch` rebuilt from a dequeued `FailedBatch`; unmentioned fields keep
their Go zero values, `IsComplete` is forced to `true`. -/
def dlqRetryPageBatch (b : FailedBatch) : PageBatch :=
  { requestID := b.requestID, batchID := "", mainURL := b.mainURL,
    batchNum := b.batchNum, pages := b.pages, isComplete := true,
    totalPages := 0, archive := [], compression := "", metadata := [],
    stats := ⟨0, 0⟩ }

/-- `src/unnamed/part_009` `RetryFailedBatches` loop body after a record
`b` has been dequeued (lines 140–157).  `deliver` models
`ac.SendBatch` (`none` = success, `some err` = failure) and `now` the
current `time.Now()` instant.  On failure the retry counter is
incremented, error and timestamp are updated, and the record is
re-enqueued only when the new counter is below the hard cap of 5. -/
def retryStep (deliver : PageBatch → Option String) (now : Nat)
    (b : FailedBatch) (q : List Json) : List Json :=
  match deliver (dlqRetryPageBatch b) with
  | none => q
  | some err =>
    let b' := { b with retryCount := b.retryCount + 1, error := err, timestamp := now }
    if b'.retryCount < 5 then dlqEnqueue b' q else q

/-- `src/unnamed/part_009` `RetryFailedBatches` (lines 121–161): drain the
queue, one `retryStep` per dequeued record; an unmarshalling failure aborts
with the error, an empty queue ends the loop.  `fuel` bounds the number of
iterations (the Go loop terminates because every failing record's remaining
retry budget shrinks). -/
def retryFailedBatches (deliver : PageBatch → Option String) (now : Nat → Nat) :
    Nat → Nat → List Json → Except String (List Json)
  | _, 0, q => .ok q
  | step, fuel + 1, q =>
    match dlqDequeue q with
    | (.empty, q') => .ok q'
    | (.corrupt, _) => .error "failed to unmarshal batch"
    | (.record b, q') =>
      retryFailedBatches deliver now (step + 1) fuel (retryStep deliver (now step) b q')

/-- `lib/crawler.go` `sendSingleBatch` delivery goroutine (lines 207–212):
`SendBatch` is called and a failure is only logged — the dead letter queue
is not touched (no call site of `DeadLetterQueue.Enqueue` exists in the
repository).  Returns the queue after the handoff, the delivery result and
the events `SendBatch` published. -/
def sendSingleBatchDeliver (env : Nat → AttemptOutcome) (hubAttached : Bool)
    (requestID : String) (dlq : List Json) :
    List Json × Option String × List ProgressEvent :=
  let r := sendBatch env maxRetries retryBackoffMs
  (dlq, r.result, sendBatchEvents hubAttached requestID r.result)

/-- `lib/event_hub.go` `EventHub`: `regs` is the subscriber registry
`requestCh` (subscriber identities per request id, `""` = global), `chans`
the buffered channel of each subscriber (oldest first), `cap` the channel
capacity (256 in `Subscribe`). -/
structure Hub where
  regs : String → List Nat
  chans : Nat → List ProgressEvent
  cap : Nat

/-- `lib/event_hub.go` `Subscribe` (lines 25–34): register a fresh
subscriber id under `requestID` with an empty channel of capacity 256. -/
def subscribe (h : Hub) (requestID : String) (i : Nat) : Hub :=
  { regs := fun r => if r = requestID then h.regs r ++ [i] else h.regs r,
    chans := fun j => if j = i then [] else h.chans j,
    cap := h.cap }

/-- The non-blocking `select { case s.ch <- ev: default: }` of
`lib/event_hub.go` `Publish`: append when the channel has room, otherwise
drop the event for that subscriber. -/
def trySend (cap : Nat) (buf : List ProgressEvent) (ev : ProgressEvent) :
    List ProgressEvent :=
  if buf.length < cap then buf ++ [ev] else buf

/-- One pass of `Publish` over one subscriber set: a non-blocking send to
every subscriber in the set. -/
def deliverTo (cap : Nat) (chans : Nat → List ProgressEvent) (ids : List Nat)
    (ev : ProgressEvent) : Nat → List ProgressEvent :=
  ids.foldl (fun cs i => fun j => if j = i then trySend cap (cs i) ev else cs j) chans

/-- `lib/event_hub.go` `Publish` (lines 51–65): iterate over the two looked
up subscriber sets — `requestCh[""]` then `requestCh[ev.RequestID]` — and
non-blockingly send to each member.  When `ev.requestID = ""` both lookups
return the same set and it is traversed twice. -/
def publish (h : Hub) (ev : ProgressEvent) : Hub :=
  let cs1 := deliverTo h.cap h.chans (h.regs "") ev
  { h with chans := deliverTo h.cap cs1 (h.regs ev.requestID) ev }

/-- A mock analyzer answering 503, 503, then 202 (spec §8 scenario). -/
def env503then202 : Nat → AttemptOutcome :=
  fun n => .status (if n < 2 then 503 else 202) ""

/-- A mock analyzer that always answers HTTP 500. -/
def envAlways500 : Nat → AttemptOutcome :=
  fun _ => .status 500 "internal error"

/-- The 3-page link chain of the crawl scenario: page `a` links to `b`,
`b` links to `c`, `c` links nowhere.  Links are keyed on the base URL the
extractor is called with. -/
def chainExtract : String → String → List String :=
  fun _ base =>
    if base = "http://s/a" then ["http://s/b"]
    else if base = "http://s/b" then ["http://s/c"]
    else []

/-- The scenario fetcher: every page fetches cleanly as HTML. -/
def chainFetch : String → PageContent :=
  fun u => ⟨u, "H" ++ u, "", "text/html"⟩

/-- The scenario crawl: 3-page chain, `max_pages = 2`, one worker, ample
fuel; links are already absolute so normalization is the identity and
every URL parses with host `s`. -/
def chainCrawl : Except String CrawlState :=
  crawlSeed chainFetch chainExtract (fun _ l => l) (fun _ => some "s")
    "r1" "http://s/a" ⟨50, 5, 1, 2⟩ 10

/-- The final state of the scenario crawl. -/
def chainState : CrawlState :=
  chainCrawl.toOption.getD (crawlInit "" "" "" 0)

/-- Number of events of a given type in an event log. -/
def countType (evs : List ProgressEvent) (t : String) : Nat :=
  (evs.filter (fun e => e.type == t)).length

/-- A concrete hub for witnesses: subscriber 0 is global, subscriber 1 is
registered under "R1", subscriber 2 under "R2". -/
def wHub : Hub :=
  { regs := fun r => if r = "" then [0] else if r = "R1" then [1]
            else if r = "R2" then [2] else [],
    chans := fun _ => [], cap := 256 }

/-- A concrete event published for request "R2". -/
def wEvR2 : ProgressEvent :=
  { type := "progress", requestID := "R2", url := "u", done := 1, total := 2,
    percent := 50, message := "" }

/-- A concrete event published with the empty request id. -/
def wEvGlobal : ProgressEvent :=
  { type := "complete", requestID := "", url := "", done := 0, total := 0,
    percent := 0, message := "all seeds completed" }

/-- A concrete failed batch for witnesses. -/
def wFailedBatch : FailedBatch :=
  { requestID := "r1", mainURL := "http://s/a", batchNum := 1,
    pages := [⟨"http://s/a", "Hhttp://s/a", "", "text/html"⟩],
    error := "analyzer returned HTTP 500: internal error", timestamp := 3,
    retryCount := 0 }



theorem enqueue_eq_or_push (n : String → String → String) (h : String → Option String)
    (st : CrawlState) (l : String) :
    enqueue n h st l = st ∨
    ∃ link, st.visited.length < st.maxPages ∧ link ∉ st.visited ∧
      enqueue n h st l = { st with visited := st.visited ++ [link],
                                   pending := st.pending ++ [link],
                                   pushed := st.pushed ++ [link],
                                   enqueued := st.enqueued + 1 } := by
  unfold enqueue
  by_cases h1 : n st.mainURL l = ""
  · simp [h1]
  · simp only [h1, if_false]
    cases hh : h (n st.mainURL l) with
    | none => left; rfl
    | some host =>
      by_cases h2 : sameHostFold st.mainHost host = true
      · simp only [h2, if_true]
        by_cases h3 : st.maxPages ≤ st.visited.length
        · simp [h3]
        · by_cases h4 : n st.mainURL l ∈ st.visited
          · simp [h3, h4]
          · right
            exact ⟨n st.mainURL l, by omega, h4, by simp [h3, h4]⟩
      · simp [h2]

theorem foldl_enqueue_inv (n : String → String → String) (h : String → Option String)
    (P : CrawlState → Prop)
    (henq : ∀ st l, P st → P (enqueue n h st l)) :
    ∀ (ls : List String) (st : CrawlState), P st → P (ls.foldl (enqueue n h) st)
  | [], _, hP => hP
  | l :: ls, st, hP => foldl_enqueue_inv n h P henq ls _ (henq st l hP)

theorem crawlBody_inv (fetch : String → PageContent) (extract : String → String → List String)
    (n : String → String → String) (h : String → Option String)
    (rid seed : String) (N : Nat) (P : CrawlState → Prop)
    (henq : ∀ st l, P st → P (enqueue n h st l))
    (hkeep : ∀ (st : CrawlState) pending' pages' processed' events',
      P st → P (withBookkeeping st pending' pages' processed' events'))
    (u : String) (rest : List String) (st : CrawlState) (hP : P st) :
    P (crawlBody fetch extract n h rid seed N u rest st).1 := by
  unfold crawlBody
  have h1 := hkeep st rest (st.pages ++ [fetch u]) (st.processed + 1) st.events hP
  set st1 := withBookkeeping st rest (st.pages ++ [fetch u]) (st.processed + 1) st.events
  by_cases hprog : st1.processed % N = 0 <;>
    simp only [hprog, if_true, if_false, ite_true, ite_false]
  · have h2 := hkeep st1 st1.pending st1.pages st1.processed
      (st1.events ++ [progressEvent rid seed st1.processed st1.enqueued]) h1
    set st2 := withBookkeeping st1 st1.pending st1.pages st1.processed
      (st1.events ++ [progressEvent rid seed st1.processed st1.enqueued])
    split
    · exact hkeep st2 st2.pending st2.pages st2.processed
        (st2.events ++ [limitEvent rid seed st2.maxPages]) h2
    · split
      · exact foldl_enqueue_inv n h P henq _ _ h2
      · exact h2
  · split
    · exact hkeep st1 st1.pending st1.pages st1.processed
        (st1.events ++ [limitEvent rid seed st1.maxPages]) h1
    · split
      · exact foldl_enqueue_inv n h P henq _ _ h1
      · exact h1

theorem crawlLoop_inv (fetch : String → PageContent) (extract : String → String → List String)
    (n : String → String → String) (h : String → Option String)
    (rid seed : String) (N : Nat) (P : CrawlState → Prop)
    (henq : ∀ st l, P st → P (enqueue n h st l))
    (hkeep : ∀ (st : CrawlState) pending' pages' processed' events',
      P st → P (withBookkeeping st pending' pages' processed' events')) :
    ∀ (fuel : Nat) (st : CrawlState), P st →
      P (crawlLoop fetch extract n h rid seed N fuel st) := by
  intro fuel
  induction fuel with
  | zero => intro st hP; simpa [crawlLoop] using hP
  | succ fuel ih =>
    intro st hP
    rw [crawlLoop]
    cases hp : st.pending with
    | nil => exact hP
    | cons u rest =>
      have hb := crawlBody_inv fetch extract n h rid seed N P henq hkeep u rest st hP
      by_cases hs : (crawlBody fetch extract n h rid seed N u rest st).2 = true
      · simp only [hs, if_true, ite_true]
        exact hb
      · simp only [hs, if_false, ite_false]
        exact ih _ hb

/-- C1: for every seed crawl and every link graph (`normalize`, `hostOf`,
`extract` and the link sequence arbitrary, so cyclic graphs included), the
size of the seed's visited set never exceeds the configured
`MaxPagesPerSeed` cap: along every sequence of `enqueue` calls from a
fresh state, and in the state the crawl itself reaches at any fuel. -/
theorem crawl_visited_size_capped
    (normalize : String → String → String) (hostOf : String → Option String)
    (rid mainURL mainHost : String) (maxPages : Nat) (links : List String)
    (fetch : String → PageContent) (extract : String → String → List String)
    (requestID seed : String) (cfg : CrawlerConfig) (fuel : Nat) :
    (links.foldl (enqueue normalize hostOf)
        (crawlInit rid mainURL mainHost maxPages)).visited.length ≤ maxPages ∧
    (match crawlSeed fetch extract normalize hostOf requestID seed cfg fuel with
     | .ok st => st.visited.length ≤ cfg.maxPagesPerSeed
     | .error _ => True) := by
  have henq : ∀ c (st : CrawlState) l,
      (st.visited.length ≤ st.maxPages ∧ st.maxPages = c) →
      ((enqueue normalize hostOf st l).visited.length ≤ (enqueue normalize hostOf st l).maxPages ∧
       (enqueue normalize hostOf st l).maxPages = c) := by
    intro c st l ⟨h1, h2⟩
    rcases enqueue_eq_or_push normalize hostOf st l with he | ⟨link, hlt, _, he⟩
    · rw [he]; exact ⟨h1, h2⟩
    · rw [he]
      constructor
      · simp only [List.length_append, List.length_cons, List.length_nil]
        omega
      · exact h2
  have hkeep : ∀ c (st : CrawlState) pending' pages' processed' events',
      (st.visited.length ≤ st.maxPages ∧ st.maxPages = c) →
      ((withBookkeeping st pending' pages' processed' events').visited.length ≤
         (withBookkeeping st pending' pages' processed' events').maxPages ∧
       (withBookkeeping st pending' pages' processed' events').maxPages = c) := by
    intro c st _ _ _ _ hP
    exact hP
  constructor
  · have h0 : (crawlInit rid mainURL mainHost maxPages).visited.length ≤
        (crawlInit rid mainURL mainHost maxPages).maxPages ∧
        (crawlInit rid mainURL mainHost maxPages).maxPages = maxPages := by
      simp [crawlInit]
    have := foldl_enqueue_inv normalize hostOf
      (fun st => st.visited.length ≤ st.maxPages ∧ st.maxPages = maxPages)
      (henq maxPages) links _ h0
    omega
  · unfold crawlSeed
    cases hh : hostOf seed with
    | none => trivial
    | some h =>
      by_cases hempty : h = ""
      · simp [hempty]
      · simp only [hempty, if_false, ite_false]
        have h0 : (crawlInit requestID seed (lowerStr h) cfg.maxPagesPerSeed).visited.length ≤
            (crawlInit requestID seed (lowerStr h) cfg.maxPagesPerSeed).maxPages ∧
            (crawlInit requestID seed (lowerStr h) cfg.maxPagesPerSeed).maxPages = cfg.maxPagesPerSeed := by
          simp [crawlInit]
        have h1 := henq cfg.maxPagesPerSeed _ seed h0
        have h2 := crawlLoop_inv fetch extract normalize hostOf requestID seed
          cfg.progressEveryN
          (fun st => st.visited.length ≤ st.maxPages ∧ st.maxPages = cfg.maxPagesPerSeed)
          (henq cfg.maxPagesPerSeed) (hkeep cfg.maxPagesPerSeed) fuel _ h1
        simpa using h2.1.trans (le_of_eq h2.2)

/-- C2: along every sequence of (atomic, mutex-protected) `enqueue` calls
from a fresh state, and in any state the crawl itself reaches, the log of
URLs pushed onto the seed's link queue has no duplicates: no URL is
enqueued twice for the same seed. -/
theorem crawl_enqueue_dedup
    (normalize : String → String → String) (hostOf : String → Option String)
    (rid mainURL mainHost : String) (maxPages : Nat) (links : List String)
    (fetch : String → PageContent) (extract : String → String → List String)
    (requestID seed : String) (cfg : CrawlerConfig) (fuel : Nat) :
    (links.foldl (enqueue normalize hostOf)
        (crawlInit rid mainURL mainHost maxPages)).pushed.Nodup ∧
    (match crawlSeed fetch extract normalize hostOf requestID seed cfg fuel with
     | .ok st => st.pushed.Nodup
     | .error _ => True) := by
  have henq : ∀ (st : CrawlState) l,
      (st.pushed.Nodup ∧ ∀ u ∈ st.pushed, u ∈ st.visited) →
      ((enqueue normalize hostOf st l).pushed.Nodup ∧
       ∀ u ∈ (enqueue normalize hostOf st l).pushed, u ∈ (enqueue normalize hostOf st l).visited) := by
    intro st l ⟨h1, h2⟩
    rcases enqueue_eq_or_push normalize hostOf st l with he | ⟨link, _, hnm, he⟩
    · rw [he]; exact ⟨h1, h2⟩
    · rw [he]
      have hlp : link ∉ st.pushed := fun hmem => hnm (h2 link hmem)
      constructor
      · simp only [List.nodup_append, List.nodup_cons, List.nodup_nil, and_true,
          List.not_mem_nil, List.disjoint_singleton]
        exact ⟨h1, by simpa using hlp⟩
      · intro u hu
        simp only [List.mem_append, List.mem_singleton] at hu ⊢
        rcases hu with hu | hu
        · exact Or.inl (h2 u hu)
        · exact Or.inr hu
  have hkeep : ∀ (st : CrawlState) pending' pages' processed' events',
      (st.pushed.Nodup ∧ ∀ u ∈ st.pushed, u ∈ st.visited) →
      ((withBookkeeping st pending' pages' processed' events').pushed.Nodup ∧
       ∀ u ∈ (withBookkeeping st pending' pages' processed' events').pushed,
         u ∈ (withBookkeeping st pending' pages' processed' events').visited) := by
    intro st _ _ _ _ hP
    exact hP
  constructor
  · have h0 : (crawlInit rid mainURL mainHost maxPages).pushed.Nodup ∧
        ∀ u ∈ (crawlInit rid mainURL mainHost maxPages).pushed,
          u ∈ (crawlInit rid mainURL mainHost maxPages).visited := by
      simp [crawlInit]
    exact (foldl_enqueue_inv normalize hostOf _ henq links _ h0).1
  · unfold crawlSeed
    cases hh : hostOf seed with
    | none => trivial
    | some h =>
      by_cases hempty : h = ""
      · simp [hempty]
      · simp only [hempty, if_false, ite_false]
        have h0 : (crawlInit requestID seed (lowerStr h) cfg.maxPagesPerSeed).pushed.Nodup ∧
            ∀ u ∈ (crawlInit requestID seed (lowerStr h) cfg.maxPagesPerSeed).pushed,
              u ∈ (crawlInit requestID seed (lowerStr h) cfg.maxPagesPerSeed).visited := by
          simp [crawlInit]
        have h1 := henq _ seed h0
        have h2 := crawlLoop_inv fetch extract normalize hostOf requestID seed
          cfg.progressEveryN _ henq hkeep fuel _ h1
        simpa using h2.1

theorem buildArchiveFrom_spec (gen : Nat → String → String → String) (mainURL : String) :
    ∀ (idx : Nat) (pages : List PageContent),
      ((buildArchiveFrom gen mainURL idx pages).2.1.length = pages.length) ∧
      ((buildArchiveFrom gen mainURL idx pages).2.1.map PageMetadata.url =
        pages.map PageContent.url) ∧
      ((buildArchiveFrom gen mainURL idx pages).2.2.successful =
        pages.countP (fun p => !pageFailed p)) ∧
      ((buildArchiveFrom gen mainURL idx pages).2.2.failed = pages.countP pageFailed)
  | _, [] => by simp [buildArchiveFrom]
  | idx, p :: rest => by
    have ih := buildArchiveFrom_spec gen mainURL (idx + 1) rest
    by_cases hf : pageFailed p = true
    · simp [buildArchiveFrom, hf, ih.1, ih.2.1, ih.2.2.1, ih.2.2.2, List.countP_cons]
    · simp only [Bool.not_eq_true] at hf
      simp [buildArchiveFrom, hf, ih.1, ih.2.1, ih.2.2.1, ih.2.2.2, List.countP_cons]

/-- C3: the Archive Builder emits exactly one metadata entry per input page
(in order), `TotalPages` of the produced batch equals `len(metadata)` and
the number of input pages, and `successful`/`failed` partition the input
pages (each page counts toward exactly one of the two). -/
theorem archive_metadata_reconciliation (gen : Nat → String → String → String)
    (requestID batchID mainURL : String) (pages : List PageContent) :
    ((buildCompressedArchive gen mainURL pages).2.1.length = pages.length) ∧
    ((buildCompressedArchive gen mainURL pages).2.1.map PageMetadata.url =
      pages.map PageContent.url) ∧
    ((mkSingleBatch gen requestID batchID mainURL pages).totalPages =
      (mkSingleBatch gen requestID batchID mainURL pages).metadata.length) ∧
    ((mkSingleBatch gen requestID batchID mainURL pages).totalPages = pages.length) ∧
    ((buildCompressedArchive gen mainURL pages).2.2.successful +
      (buildCompressedArchive gen mainURL pages).2.2.failed = pages.length) ∧
    ((buildCompressedArchive gen mainURL pages).2.2.successful =
      pages.countP (fun p => !pageFailed p)) ∧
    ((buildCompressedArchive gen mainURL pages).2.2.failed = pages.countP pageFailed) := by
  have h := buildArchiveFrom_spec gen mainURL 0 pages
  have hcount : ∀ ps : List PageContent,
      ps.countP (fun p => !pageFailed p) + ps.countP pageFailed = ps.length := by
    intro ps
    induction ps with
    | nil => simp
    | cons a t ih =>
      by_cases ha : pageFailed a = true <;> simp [List.countP_cons, ha] <;> omega
  refine ⟨h.1, h.2.1, rfl, ?_, ?_, h.2.2.1, h.2.2.2⟩
  · simpa [mkSingleBatch, buildCompressedArchive] using h.1
  · simp only [buildCompressedArchive]
    rw [h.2.2.1, h.2.2.2]
    exact hcount pages

theorem sendLoop_spec (env : Nat → AttemptOutcome) (backoff : Nat) :
    ∀ (fuel attempt : Nat),
      ((sendLoop env backoff attempt fuel).attempts ≤ fuel) ∧
      (1 ≤ fuel → 1 ≤ (sendLoop env backoff attempt fuel).attempts) ∧
      ((sendLoop env backoff attempt fuel).delays =
        (List.range ((sendLoop env backoff attempt fuel).attempts - 1)).map
          (fun k => backoff * 2 ^ (attempt + k))) := by
  intro fuel
  induction fuel with
  | zero => intro attempt; simp [sendLoop]
  | succ fuel ih =>
    intro attempt
    rw [sendLoop]
    cases h : sendBatchOnce (env attempt) with
    | none => simp
    | some err =>
      by_cases hf : fuel = 0
      · simp [hf]
      · simp only [hf, if_false, ite_false]
        obtain ⟨ha, hpos, hd⟩ := ih (attempt + 1)
        rcases hr : sendLoop env backoff (attempt + 1) fuel with ⟨n, ds, res⟩
        rw [hr] at ha hpos hd
        simp only [] at ha hpos hd ⊢
        have hn1 : 1 ≤ n := hpos (by omega)
        refine ⟨by omega, fun _ => by omega, ?_⟩
        have hn : n - 1 + 1 = n := by omega
        rw [hd]
        rw [show n + 1 - 1 = (n - 1) + 1 by omega]
        rw [List.range_succ_eq_map]
        simp only [List.map_cons, List.map_map, pow_zero, Nat.add_zero]
        congr 1
        apply List.map_congr_left
        intro k _
        simp only [Function.comp_apply]
        have hexp : attempt + Nat.succ k = attempt + 1 + k := by omega
        rw [hexp]

/-- C4: `SendBatch` makes at most 4 delivery attempts; the sleeps before
the retries are exactly `base * 2 ^ 0, base * 2 ^ 1, ...` in order, hence
non-decreasing; one attempt succeeds iff the HTTP status is 2xx or 202;
and against an analyzer answering 503, 503, 202, `SendBatch` succeeds on
the third attempt after sleeping 2000 ms and then 4000 ms. -/
theorem sendBatch_retry_budget_backoff (env : Nat → AttemptOutcome) (base : Nat) :
    ((sendBatch env maxRetries base).attempts ≤ 4) ∧
    ((sendBatch env maxRetries base).delays =
      (List.range ((sendBatch env maxRetries base).attempts - 1)).map
        (fun k => base * 2 ^ k)) ∧
    ((sendBatch env maxRetries base).delays.Pairwise (· ≤ ·)) ∧
    (∀ code body, sendBatchOnce (.status code body) = none ↔
      (200 ≤ code ∧ code < 300) ∨ code = 202) ∧
    (sendBatch env503then202 maxRetries retryBackoffMs = ⟨3, [2000, 4000], none⟩) := by
  obtain ⟨ha, -, hd⟩ := sendLoop_spec env base (maxRetries + 1) 0
  have hd' : (sendBatch env maxRetries base).delays =
      (List.range ((sendBatch env maxRetries base).attempts - 1)).map
        (fun k => base * 2 ^ k) := by
    simpa [sendBatch] using hd
  refine ⟨ha, hd', ?_, ?_, by decide⟩
  · rw [hd']
    refine (List.pairwise_lt_range _).map _ ?_
    intro a b hab
    exact Nat.mul_le_mul_left base (Nat.pow_le_pow_right (by omega) (by omega))
  · intro code body
    simp only [sendBatchOnce]
    split_ifs with h1 h2 h3
    · simp [h1]
    · simp only [reduceCtorEq, false_iff]
      omega
    · simp only [reduceCtorEq, false_iff]
      omega
    · simp only [true_iff]
      omega

theorem sendLoop_all_fail (env : Nat → AttemptOutcome) (backoff : Nat)
    (hfail : ∀ n, (sendBatchOnce (env n)).isSome = true) :
    ∀ (fuel attempt : Nat), 1 ≤ fuel →
      ((sendLoop env backoff attempt fuel).result = sendBatchOnce (env (attempt + fuel - 1))) ∧
      ((sendLoop env backoff attempt fuel).attempts = fuel) := by
  intro fuel
  induction fuel with
  | zero => omega
  | succ fuel ih =>
    intro attempt _
    rw [sendLoop]
    cases h : sendBatchOnce (env attempt) with
    | none => have := hfail attempt; rw [h] at this; simp at this
    | some err =>
      by_cases hf : fuel = 0
      · subst hf; simp [h]
      · simp only [hf, if_false, ite_false]
        obtain ⟨hres, hatt⟩ := ih (attempt + 1) (by omega)
        rcases hr : sendLoop env backoff (attempt + 1) fuel with ⟨n, ds, res⟩
        rw [hr] at hres hatt
        simp only [] at hres hatt ⊢
        constructor
        · rw [hres]
          have he : attempt + 1 + fuel - 1 = attempt + (fuel + 1) - 1 := by omega
          rw [he]
        · omega

/-- C5 (amended): if every delivery attempt of a batch fails, `SendBatch`
makes all 4 attempts, returns the error of the last attempt, and publishes
exactly one `batch_delivery_failed` event when an event hub has been
attached via `SetEventHub` (none otherwise, and the wiring in the repo
never attaches one); its caller `sendSingleBatch` only logs the failure
and leaves the dead letter queue untouched — the failed batch is never
handed to the Dead Letter Queue. -/
theorem sendBatch_exhaustion_amended (env : Nat → AttemptOutcome) (hub : Bool)
    (requestID : String) (dlq : List Json)
    (hfail : ∀ n, (sendBatchOnce (env n)).isSome = true) :
    ((sendSingleBatchDeliver env hub requestID dlq).1 = dlq) ∧
    ((sendSingleBatchDeliver env hub requestID dlq).2.1 = sendBatchOnce (env 3)) ∧
    ((sendBatch env maxRetries retryBackoffMs).attempts = 4) ∧
    ((sendSingleBatchDeliver env hub requestID dlq).2.2.length = if hub then 1 else 0) ∧
    (∀ e ∈ (sendSingleBatchDeliver env hub requestID dlq).2.2,
      e.type = "batch_delivery_failed") := by
  obtain ⟨hres, hatt⟩ := sendLoop_all_fail env retryBackoffMs hfail (maxRetries + 1) 0 (by omega)
  have hres' : (sendBatch env maxRetries retryBackoffMs).result = sendBatchOnce (env 3) := by
    simpa [sendBatch] using hres
  obtain ⟨err, herr⟩ := Option.isSome_iff_exists.mp (hfail 3)
  refine ⟨rfl, ?_, by simpa [sendBatch] using hatt, ?_, ?_⟩
  · simpa [sendSingleBatchDeliver] using hres'
  · simp [sendSingleBatchDeliver, sendBatchEvents, hres', herr]
    cases hub <;> simp
  · intro e he
    simp only [sendSingleBatchDeliver, sendBatchEvents, hres', herr] at he
    cases hub <;> simp at he
    rw [he]

/-- C5 counterexample: against an analyzer that always answers HTTP 500,
after the retry budget is exhausted the delivery has failed and exactly
one `batch_delivery_failed` event is published, but the caller leaves the
dead letter queue empty — the batch does not appear in the Dead Letter
Queue (with `retry_count = 0` or otherwise), contrary to the claim. -/
theorem sendBatch_failure_no_dlq_counterexample :
    ((sendSingleBatchDeliver envAlways500 true "r1" []).2.1.isSome = true) ∧
    ((sendSingleBatchDeliver envAlways500 true "r1" []).2.2.length = 1) ∧
    ((sendSingleBatchDeliver envAlways500 true "r1" []).1 = []) := by
  refine ⟨by decide, by decide, rfl⟩

/-- Witness for `sendBatch_exhaustion_amended` at the always-500 analyzer. -/
theorem sendBatch_exhaustion_amended_witness :
    ((sendSingleBatchDeliver envAlways500 true "rw" []).1 = []) ∧
    ((sendSingleBatchDeliver envAlways500 true "rw" []).2.1 =
      sendBatchOnce (envAlways500 3)) ∧
    ((sendBatch envAlways500 maxRetries retryBackoffMs).attempts = 4) := by
  have h := sendBatch_exhaustion_amended envAlways500 true "rw" [] (fun _ => rfl)
  exact ⟨h.1, h.2.1, h.2.2.1⟩

/-- C6: after a failed redelivery attempt the dequeued record is
re-enqueued exactly when its incremented retry counter is below the hard
cap of 5, with `retry_count` incremented (strictly increasing) and error
and timestamp updated; at the cap the record is dropped, not requeued. -/
theorem dlq_retry_count_monotone_capped (deliver : PageBatch → Option String)
    (now : Nat) (b : FailedBatch) (q : List Json) (err : String)
    (hfail : deliver (dlqRetryPageBatch b) = some err) :
    (b.retryCount + 1 < 5 →
      retryStep deliver now b q =
        marshalFailedBatch
          { b with retryCount := b.retryCount + 1, error := err, timestamp := now } :: q) ∧
    (5 ≤ b.retryCount + 1 → retryStep deliver now b q = q) ∧
    b.retryCount < b.retryCount + 1 := by
  unfold retryStep
  rw [hfail]
  refine ⟨?_, ?_, Nat.lt_succ_self _⟩
  · intro hlt
    simp [dlqEnqueue, hlt]
  · intro hge
    have hn : ¬ (b.retryCount + 1 < 5) := by omega
    simp [hn]

/-- Witness for `dlq_retry_count_monotone_capped` on a concrete record. -/
theorem dlq_retry_count_monotone_capped_witness :
    retryStep (fun _ => some "boom") 7 wFailedBatch [] =
      [marshalFailedBatch
        { wFailedBatch with retryCount := 1, error := "boom", timestamp := 7 }] := by
  have h := dlq_retry_count_monotone_capped (fun _ => some "boom") 7 wFailedBatch [] "boom" rfl
  exact h.1 (by decide)

theorem unmarshal_marshal_page (p : PageContent) :
    unmarshalPageContent (marshalPageContent p) = some p := by
  rcases p with ⟨url, html, err, ct⟩
  by_cases he : err = "" <;> by_cases hc : ct = "" <;>
    simp [marshalPageContent, unmarshalPageContent, getStrField, List.lookup, he, hc]

theorem unmarshalPages_marshal : ∀ ps : List PageContent,
    unmarshalPages (ps.map marshalPageContent) = some ps
  | [] => rfl
  | p :: ps => by
    simp [unmarshalPages, unmarshal_marshal_page p, unmarshalPages_marshal ps]

theorem unmarshal_marshal_failed (b : FailedBatch) :
    unmarshalFailedBatch (marshalFailedBatch b) = some b := by
  rcases b with ⟨rid, mu, bn, pages, err, ts, rc⟩
  simp [marshalFailedBatch, unmarshalFailedBatch, getStrField, getNatField,
    List.lookup, unmarshalPages_marshal]

theorem getLast_foldl_enqueue : ∀ (bs : List FailedBatch) (q : List Json) (j : Json),
    (bs.foldl (fun q x => dlqEnqueue x q) (q ++ [j])).getLast? = some j
  | [], q, j => by simp
  | b :: bs, q, j => by
    have h := getLast_foldl_enqueue bs (marshalFailedBatch b :: q) j
    simpa [dlqEnqueue] using h

/-- C7: `Enqueue` then `Dequeue` round-trips a `FailedBatch` through its
JSON serialization, and the queue is FIFO oldest-first: after any further
records are enqueued, `Dequeue` still returns the earliest-enqueued
record. -/
theorem dlq_enqueue_dequeue_roundtrip_fifo (b : FailedBatch) (bs : List FailedBatch) :
    (dlqDequeue (dlqEnqueue b []) = (.record b, [])) ∧
    ((dlqDequeue (bs.foldl (fun q x => dlqEnqueue x q) (dlqEnqueue b []))).1 =
      .record b) := by
  constructor
  · simp [dlqEnqueue, dlqDequeue, unmarshal_marshal_failed]
  · have hl : (bs.foldl (fun q x => dlqEnqueue x q) (dlqEnqueue b [])).getLast? =
        some (marshalFailedBatch b) := by
      simpa using getLast_foldl_enqueue bs [] (marshalFailedBatch b)
    unfold dlqDequeue
    rw [hl]
    simp [unmarshal_marshal_failed]

theorem deliverTo_not_mem (cap : Nat) (ev : ProgressEvent) :
    ∀ (ids : List Nat) (chans : Nat → List ProgressEvent) (i : Nat),
      i ∉ ids → deliverTo cap chans ids ev i = chans i
  | [], _, _, _ => rfl
  | a :: ids, chans, i, hm => by
    have hia : i ≠ a := by simp only [List.mem_cons, not_or] at hm; exact hm.1
    have hrest : i ∉ ids := by simp only [List.mem_cons, not_or] at hm; exact hm.2
    have h := deliverTo_not_mem cap ev ids
      (fun j => if j = a then trySend cap (chans a) ev else chans j) i hrest
    simp only [deliverTo, List.foldl_cons] at h ⊢
    rw [h]
    simp [hia]

theorem deliverTo_mem (cap : Nat) (ev : ProgressEvent) :
    ∀ (ids : List Nat) (chans : Nat → List ProgressEvent) (i : Nat),
      ids.Nodup → i ∈ ids →
      deliverTo cap chans ids ev i = trySend cap (chans i) ev
  | [], _, _, _, hm => by simp at hm
  | a :: ids, chans, i, hnd, hm => by
    have hnd' : ids.Nodup := (List.nodup_cons.mp hnd).2
    by_cases hia : i = a
    · subst hia
      have hni : i ∉ ids := (List.nodup_cons.mp hnd).1
      have h := deliverTo_not_mem cap ev ids
        (fun j => if j = i then trySend cap (chans i) ev else chans j) i hni
      simp only [deliverTo, List.foldl_cons] at h ⊢
      rw [h]
      simp
    · have hmem : i ∈ ids := by
        rcases List.mem_cons.mp hm with h | h
        · exact absurd h hia
        · exact h
      have h := deliverTo_mem cap ev ids
        (fun j => if j = a then trySend cap (chans a) ev else chans j) i hnd' hmem
      simp only [deliverTo, List.foldl_cons] at h ⊢
      rw [h]
      simp [hia]

theorem deliverTo_full (cap : Nat) (ev : ProgressEvent) :
    ∀ (ids : List Nat) (chans : Nat → List ProgressEvent) (i : Nat),
      cap ≤ (chans i).length → deliverTo cap chans ids ev i = chans i
  | [], _, _, _ => rfl
  | a :: ids, chans, i, hfull => by
    have hstep : (if i = a then trySend cap (chans a) ev else chans i) = chans i := by
      by_cases hia : i = a
      · subst hia
        have hn : ¬ (chans i).length < cap := by omega
        simp [trySend, hn]
      · simp [hia]
    have hfull' : cap ≤
        ((fun j => if j = a then trySend cap (chans a) ev else chans j) i).length := by
      simpa [hstep] using hfull
    have h := deliverTo_full cap ev ids
      (fun j => if j = a then trySend cap (chans a) ev else chans j) i hfull'
    simp only [deliverTo, List.foldl_cons] at h ⊢
    rw [h]
    exact hstep

/-- C8: for an event with a non-empty request id `R`, `Publish` delivers
exactly to the subscribers registered under `R` and under `""`: a
subscriber registered under neither receives nothing; a global-only or an
`R`-only subscriber with room in its channel receives exactly one copy;
a subscriber whose channel is full receives nothing — the event is dropped
for it and the publisher never blocks (`publish` is a total function). -/
theorem eventHub_scoped_delivery (h : Hub) (ev : ProgressEvent) (i : Nat)
    (_hne : ev.requestID ≠ "")
    (hg : (h.regs "").Nodup) (hr : (h.regs ev.requestID).Nodup) :
    ((i ∉ h.regs "" ∧ i ∉ h.regs ev.requestID) → (publish h ev).chans i = h.chans i) ∧
    ((i ∈ h.regs "" ∧ i ∉ h.regs ev.requestID ∧ (h.chans i).length < h.cap) →
      (publish h ev).chans i = h.chans i ++ [ev]) ∧
    ((i ∉ h.regs "" ∧ i ∈ h.regs ev.requestID ∧ (h.chans i).length < h.cap) →
      (publish h ev).chans i = h.chans i ++ [ev]) ∧
    (h.cap ≤ (h.chans i).length → (publish h ev).chans i = h.chans i) := by
  refine ⟨?_, ?_, ?_, ?_⟩
  · rintro ⟨h1, h2⟩
    simp only [publish]
    rw [deliverTo_not_mem h.cap ev _ _ i h2, deliverTo_not_mem h.cap ev _ _ i h1]
  · rintro ⟨h1, h2, h3⟩
    simp only [publish]
    rw [deliverTo_not_mem h.cap ev _ _ i h2, deliverTo_mem h.cap ev _ _ i hg h1]
    simp [trySend, h3]
  · rintro ⟨h1, h2, h3⟩
    simp only [publish]
    rw [deliverTo_mem h.cap ev _ _ i hr h2, deliverTo_not_mem h.cap ev _ _ i h1]
    simp [trySend, h3]
  · intro hfull
    simp only [publish]
    rw [deliverTo_full h.cap ev _ _ i (by rw [deliverTo_full h.cap ev _ _ i hfull]; exact hfull),
      deliverTo_full h.cap ev _ _ i hfull]

/-- Witness for `eventHub_scoped_delivery`: subscriber 1 (registered for
"R1") receives nothing from an "R2" event, subscriber 0 (global) and
subscriber 2 (registered for "R2") each receive one copy. -/
theorem eventHub_scoped_delivery_witness :
    ((publish wHub wEvR2).chans 1 = []) ∧
    ((publish wHub wEvR2).chans 0 = [wEvR2]) ∧
    ((publish wHub wEvR2).chans 2 = [wEvR2]) := by
  have h1 := eventHub_scoped_delivery wHub wEvR2 1 (by decide) (by decide) (by decide)
  have h0 := eventHub_scoped_delivery wHub wEvR2 0 (by decide) (by decide) (by decide)
  have h2 := eventHub_scoped_delivery wHub wEvR2 2 (by decide) (by decide) (by decide)
  refine ⟨?_, ?_, ?_⟩
  · rw [h1.1 ⟨by decide, by decide⟩]
    rfl
  · rw [h0.2.1 ⟨by decide, by decide, by decide⟩]
    rfl
  · rw [h2.2.2.1 ⟨by decide, by decide, by decide⟩]
    rfl

/-- C9: the 3-page chain crawled with `max_pages = 2` fetches exactly the
first two pages, publishes exactly one `limit_reached` event, never
fetches or visits the third page, and the state machine admits no further
pages once the cap is hit: enqueueing the third URL on the final state is
a no-op. -/
theorem crawl_chain_limit_case :
    (chainCrawl.toOption = some chainState) ∧
    (chainState.pages.length = 2) ∧
    (chainState.pages.map PageContent.url = ["http://s/a", "http://s/b"]) ∧
    (countType chainState.events "limit_reached" = 1) ∧
    ("http://s/c" ∉ chainState.visited) ∧
    ("http://s/c" ∉ chainState.pages.map PageContent.url) ∧
    (enqueue (fun _ l => l) (fun _ => some "s") chainState "http://s/c" = chainState) := by
  refine ⟨rfl, rfl, rfl, rfl, by decide, by decide, rfl⟩

/-- C10: `Publish` with an empty request id looks the global registry up
twice, so a global subscriber with at least two free channel slots
receives the single event twice; with a non-empty request id a global-only
subscriber receives exactly one copy per `Publish`. -/
theorem publish_empty_requestID_double_delivery (h : Hub) (ev : ProgressEvent) (i : Nat)
    (hrid : ev.requestID = "") (hmem : i ∈ h.regs "") (hnd : (h.regs "").Nodup)
    (hroom : (h.chans i).length + 2 ≤ h.cap) :
    ((publish h ev).chans i = h.chans i ++ [ev, ev]) ∧
    (∀ ev2 : ProgressEvent, ev2.requestID ≠ "" → i ∉ h.regs ev2.requestID →
      (h.chans i).length < h.cap →
      (publish h ev2).chans i = h.chans i ++ [ev2]) := by
  constructor
  · simp only [publish, hrid]
    have h1 : deliverTo h.cap h.chans (h.regs "") ev i = trySend h.cap (h.chans i) ev :=
      deliverTo_mem h.cap ev _ _ i hnd hmem
    rw [deliverTo_mem h.cap ev _ _ i hnd hmem, h1]
    have ht1 : trySend h.cap (h.chans i) ev = h.chans i ++ [ev] := by
      simp [trySend]; omega
    rw [ht1]
    have hlen : (h.chans i).length + 1 < h.cap := by omega
    have ht2 : trySend h.cap (h.chans i ++ [ev]) ev = (h.chans i ++ [ev]) ++ [ev] := by
      simp [trySend, hlen]
    rw [ht2]
    simp
  · intro ev2 hne2 hni hlt
    simp only [publish]
    rw [deliverTo_not_mem h.cap ev2 _ _ i hni, deliverTo_mem h.cap ev2 _ _ i hnd hmem]
    simp [trySend, hlt]

/-- Witness for `publish_empty_requestID_double_delivery`: the global
subscriber 0 receives the empty-request-id event twice, and a single copy
of an "R2" event. -/
theorem publish_empty_requestID_double_delivery_witness :
    ((publish wHub wEvGlobal).chans 0 = [wEvGlobal, wEvGlobal]) ∧
    ((publish wHub wEvR2).chans 0 = [wEvR2]) := by
  have h := publish_empty_requestID_double_delivery wHub wEvGlobal 0
    (by decide) (by decide) (by decide) (by decide)
  constructor
  · rw [h.1]
    rfl
  · rw [h.2 wEvR2 (by decide) (by decide) (by decide)]
    rfl

/-- Witness for `crawl_visited_size_capped` at a concrete link sequence. -/
theorem crawl_visited_size_capped_witness :
    (["http://s/a", "http://s/b", "http://s/c", "http://s/a"].foldl
      (enqueue (fun _ l => l) (fun _ => some "s"))
      (crawlInit "r" "http://s/a" "s" 2)).visited.length ≤ 2 :=
  (crawl_visited_size_capped (fun _ l => l) (fun _ => some "s") "r" "http://s/a" "s" 2
    ["http://s/a", "http://s/b", "http://s/c", "http://s/a"] chainFetch chainExtract
    "r1" "http://s/a" ⟨50, 5, 1, 2⟩ 10).1

/-- Witness for `crawl_enqueue_dedup` at a concrete link sequence. -/
theorem crawl_enqueue_dedup_witness :
    (["http://s/a", "http://s/b", "http://s/a", "http://s/c"].foldl
      (enqueue (fun _ l => l) (fun _ => some "s"))
      (crawlInit "r" "http://s/a" "s" 5)).pushed.Nodup :=
  (crawl_enqueue_dedup (fun _ l => l) (fun _ => some "s") "r" "http://s/a" "s" 5
    ["http://s/a", "http://s/b", "http://s/a", "http://s/c"] chainFetch chainExtract
    "r1" "http://s/a" ⟨50, 5, 1, 2⟩ 10).1

/-- Witness for `sendBatch_retry_budget_backoff` at the always-500 mock. -/
theorem sendBatch_retry_budget_backoff_witness :
    (sendBatch envAlways500 maxRetries 2000).attempts ≤ 4 :=
  (sendBatch_retry_budget_backoff envAlways500 2000).1
